import Mathlib

/-!
Verification of the watermelon-api data-normalization and ticker-resolution
pipeline (`src/utils.py`, `src/cache_manager.py`).

The Python source is shallowly embedded: strings are Lean `String`s, the
Python regular expressions used by the source are modelled by a miniature
backtracking matcher (`RE`) covering exactly the constructs they use,
JSON values returned by the outside search service are modelled by `JVal`,
Python exceptions are modelled by `Except Unit`, and the process-wide
ticker cache together with its write-through persistence and the number of
outbound search calls is threaded explicitly as a `TickerState`.
-/

namespace Watermelon

/-- ASCII uppercase letter, the character class `[A-Z]`. -/
def isUpperAZ (c : Char) : Bool := 'A' ≤ c && c ≤ 'Z'

/-- ASCII lowercase letter, the character class `[a-z]`. -/
def isLowerAZ (c : Char) : Bool := 'a' ≤ c && c ≤ 'z'

/-- Decimal digit, the character class `\d` (ASCII fragment). -/
def isDigit09 (c : Char) : Bool := '0' ≤ c && c ≤ '9'

/-- Word character used by the `\b` boundary: `[A-Za-z0-9_]` (ASCII fragment of `\w`). -/
def isWordChar (c : Char) : Bool := isUpperAZ c || isLowerAZ c || isDigit09 c || c = '_'

/-- Whitespace as recognised by Python `str.strip()` / `str.split()` (ASCII fragment). -/
def pyIsSpace (c : Char) : Bool :=
  c = ' ' || c = '\t' || c = '\n' || c = '\r' || c = '\x0b' || c = '\x0c'

/-- Drop the characters satisfying `p` from both ends of a character list. -/
def stripChars (p : Char → Bool) (cs : List Char) : List Char :=
  ((cs.dropWhile p).reverse.dropWhile p).reverse

/-- Python `s.strip()`. -/
def pyStrip (s : String) : String := ⟨stripChars pyIsSpace s.data⟩

/-- Python `s.strip('.')`. -/
def pyStripDot (s : String) : String := ⟨stripChars (fun c => c = '.') s.data⟩

/-- Python `s.lower()` (ASCII fragment). -/
def pyLower (s : String) : String := ⟨s.data.map Char.toLower⟩

/-- Python `s.upper()` (ASCII fragment). -/
def pyUpper (s : String) : String := ⟨s.data.map Char.toUpper⟩

/-- Python replace-with-empty: remove every occurrence of the character `c`. -/
def pyRemoveChar (c : Char) (s : String) : String := ⟨s.data.filter (fun d => d ≠ c)⟩

/-- Helper for `pySplitWs`: accumulate the current word (reversed in `acc`). -/
def pySplitWsAux : List Char → List Char → List String
  | [], acc => if acc.isEmpty then [] else [⟨acc.reverse⟩]
  | c :: cs, acc =>
    if pyIsSpace c then
      if acc.isEmpty then pySplitWsAux cs [] else ⟨acc.reverse⟩ :: pySplitWsAux cs []
    else pySplitWsAux cs (c :: acc)

/-- Python `s.split()`: split on whitespace runs, dropping empty pieces. -/
def pySplitWs (s : String) : List String := pySplitWsAux s.data []

/-- Helper for `pySplitComma`. -/
def pySplitCommaAux : List Char → List Char → List String
  | [], acc => [⟨acc.reverse⟩]
  | c :: cs, acc =>
    if c = ',' then ⟨acc.reverse⟩ :: pySplitCommaAux cs [] else pySplitCommaAux cs (c :: acc)

/-- Python `s.split(',')`: split at every comma, keeping empty pieces. -/
def pySplitComma (s : String) : List String := pySplitCommaAux s.data []

/-- Substring test, Python `sub in s`. -/
def strHasSub (s sub : String) : Bool :=
  (List.range (s.data.length + 1)).any (fun i => sub.data.isPrefixOf (s.data.drop i))

/-- Miniature regular-expression syntax covering exactly the ticker patterns
of the source: counted character classes, literals, sequencing and a greedy
optional group. -/
inductive RE
  | cls (p : Char → Bool) (lo hi : Nat)
  | lit (c : Char)
  | seq (a b : RE)
  | opt (a : RE)

/-- All ways a pattern can consume a prefix of `cs`, as (consumed, rest)
pairs listed in backtracking preference order (greedy first), mirroring the
Python `re` engine on these patterns. -/
def RE.runs : RE → List Char → List (List Char × List Char)
  | .lit c, cs =>
    match cs with
    | [] => []
    | d :: rest => if d = c then [([d], rest)] else []
  | .cls p lo hi, cs =>
    let m := min hi (cs.takeWhile p).length
    if m < lo then []
    else (List.range (m + 1 - lo)).map (fun j => (cs.take (m - j), cs.drop (m - j)))
  | .seq a b, cs =>
    (a.runs cs).flatMap (fun pr => (b.runs pr.2).map (fun qr => (pr.1 ++ qr.1, qr.2)))
  | .opt a, cs => a.runs cs ++ [([], cs)]

/-- Python `$` in `re.match`: end of string, or just before a final newline. -/
def dollarEnd : List Char → Bool
  | [] => true
  | [c] => c = '\n'
  | _ => false

/-- Python `re.match` of the `$`-anchored pattern viewed as a Bool: the pattern consumes a
prefix of `s` and the rest is accepted by `$`. -/
def reFullMatch (r : RE) (s : String) : Bool :=
  (r.runs s.data).any (fun pr => dollarEnd pr.2)

/-- Shorthand for `[A-Z]{lo,hi}`. -/
def azRep (lo hi : Nat) : RE := .cls isUpperAZ lo hi

/-- Shorthand for `\d{lo,hi}`. -/
def digitRep (lo hi : Nat) : RE := .cls isDigit09 lo hi

/-- The optional exchange suffix `(\.[A-Z]{1,2})?`. -/
def dotSuffix : RE := .opt (.seq (.lit '.') (azRep 1 2))

/-- Validator pattern `^[A-Z]{1,5}$` (regular NYSE/NASDAQ). -/
def patPlain : RE := azRep 1 5

/-- Validator pattern `^[A-Z]{4,5}Y$` (ADRs ending in Y). -/
def patADR : RE := .seq (azRep 4 5) (.lit 'Y')

/-- Validator pattern `^[A-Z]{2,6}F$` (foreign ordinary shares). -/
def patF : RE := .seq (azRep 2 6) (.lit 'F')

/-- Validator pattern `^[A-Z]{4,6}(\.[A-Z]{1,2})?$` (OTC/ADR tickers). -/
def patOTC : RE := .seq (azRep 4 6) dotSuffix

/-- Validator pattern `^[A-Z]{1,4}\d{1,2}(\.[A-Z]{1,2})?$` (tickers with numbers). -/
def patNum : RE := .seq (azRep 1 4) (.seq (digitRep 1 2) dotSuffix)

/-- Source `is_valid_ticker` (`src/utils.py:54`): non-empty, at most 10
characters, and `re.match` against at least one of the five patterns. -/
def is_valid_ticker (ticker : String) : Bool :=
  if ticker.data = [] ∨ ticker.data.length > 10 then false
  else [patPlain, patADR, patF, patOTC, patNum].any (fun p => reFullMatch p ticker)

/-- Word boundary `\b` between an optional preceding character and an
optional following character: exactly one side is a word character. -/
def isBoundary (prev next : Option Char) : Bool :=
  (match prev with | some c => isWordChar c | none => false) !=
  (match next with | some c => isWordChar c | none => false)

/-- Last character of the consumed text, falling back to the previous
character when nothing was consumed. -/
def lastOr (consumed : List Char) (prev : Option Char) : Option Char :=
  match consumed.getLast? with
  | some c => some c
  | none => prev

/-- Try `\b pat \b` at the current position (with `prev` the character just
before it): first run, in backtracking order, whose end also sits on a word
boundary. -/
def tryMatchAt (r : RE) (prev : Option Char) (cs : List Char) : Option (List Char × List Char) :=
  if isBoundary prev cs.head? then
    (r.runs cs).find? (fun pr => isBoundary (lastOr pr.1 prev) pr.2.head?)
  else none

/-- Python `re.findall` of the word-bounded group pattern driver: scan left to right, emit
each non-overlapping match and resume after it. `fuel` bounds the recursion
(every step consumes at least one character). -/
def findallAux (r : RE) : Nat → Option Char → List Char → List String
  | 0, _, _ => []
  | _ + 1, _, [] => []
  | fuel + 1, prev, c :: cs =>
    match tryMatchAt r prev (c :: cs) with
    | some (consumed, rest) =>
      String.mk consumed :: findallAux r fuel (lastOr consumed prev) rest
    | none => findallAux r fuel (some c) cs

/-- Python `re.findall` of the word-bounded group pattern for the ticker extraction patterns. -/
def findallB (r : RE) (s : String) : List String :=
  findallAux r (s.data.length + 1) none s.data

/-- Extraction pattern `\b([A-Z]{4,6}Y)\b` (`src/utils.py:118`). -/
def xpatADR : RE := .seq (azRep 4 6) (.lit 'Y')

/-- Extraction pattern `\b([A-Z]{2,6}F)\b`. -/
def xpatF : RE := .seq (azRep 2 6) (.lit 'F')

/-- Extraction pattern `\b([A-Z]{4,6}(?:\.[A-Z]{1,2})?)\b`. -/
def xpatOTC : RE := .seq (azRep 4 6) dotSuffix

/-- Extraction pattern `\b([A-Z]{1,4}\d{1,2}(?:\.[A-Z]{1,2})?)\b`. -/
def xpatNum : RE := .seq (azRep 1 4) (.seq (digitRep 1 2) dotSuffix)

/-- Extraction pattern `\b([A-Z]{1,5})\b` (checked last in the source). -/
def xpatPlain : RE := azRep 1 5

/-- The `ticker_patterns` list of the source (`src/utils.py:117`), in order. -/
def ticker_patterns : List RE := [xpatADR, xpatF, xpatOTC, xpatNum, xpatPlain]

/-- Python `max(xs, key=len)` on a possibly empty list: first element of
maximal length, or `none` when the list is empty (the source guards with
`if all_matches`). -/
def pyMaxByLen : List String → Option String
  | [] => none
  | x :: xs =>
    some (xs.foldl (fun best y => if y.data.length > best.data.length then y else best) x)

/-- Candidate selection of `src/utils.py:115-135`: for every pattern in
order, every `findall` match that passes `is_valid_ticker` and is not a
whole uppercased word of the company name is collected; the longest
survivor (first on ties) is chosen. -/
def extract_ticker (content company_name : String) : Option String :=
  let company_words := pySplitWs (pyUpper company_name)
  let all_matches := ticker_patterns.flatMap (fun pat =>
    (findallB pat content).filter
      (fun m => is_valid_ticker m && !(company_words.contains m)))
  pyMaxByLen all_matches

/-- JSON values, the possible shapes of a decoded search-service response
body (`response.json()` in `search_with_perplexity`). -/
inductive JVal
  | null
  | bool (b : Bool)
  | num (n : Int)
  | str (s : String)
  | arr (items : List JVal)
  | obj (fields : List (String × JVal))

/-- Python truthiness (`not response`) of a JSON value. -/
def JVal.falsy : JVal → Bool
  | .null => true
  | .bool b => !b
  | .num n => n == 0
  | .str s => s.data.isEmpty
  | .arr items => items.isEmpty
  | .obj fields => fields.isEmpty

/-- Python equality of a JSON value against a string literal (used for
membership tests in lists): only a string can compare equal to a string. -/
def JVal.eqStr : JVal → String → Bool
  | .str s, k => s = k
  | _, _ => false

/-- Python `k in j` for a string `k`: key membership for dicts, element
membership for lists, substring test for strings; `TypeError` otherwise. -/
def pyContains (j : JVal) (k : String) : Except Unit Bool :=
  match j with
  | .obj fields => .ok (fields.any (fun f => f.1 = k))
  | .arr items => .ok (items.any (fun v => v.eqStr k))
  | .str s => .ok (strHasSub s k)
  | _ => .error ()

/-- Subscript keys: Python `j[k]` with a string or an integer key. -/
inductive PyKey
  | str (k : String)
  | idx (n : Nat)

/-- Python subscription `j[k]`: dict key lookup (`KeyError` when missing),
list indexing (`IndexError` out of range), string indexing (one-character
string), `TypeError` for every other combination. -/
def pyIndex (j : JVal) (k : PyKey) : Except Unit JVal :=
  match j, k with
  | .obj fields, .str s =>
    match fields.find? (fun f => f.1 = s) with
    | some f => .ok f.2
    | none => .error ()
  | .arr items, .idx n =>
    match items.get? n with
    | some v => .ok v
    | none => .error ()
  | .str s, .idx n =>
    match s.data.get? n with
    | some c => .ok (.str ⟨[c]⟩)
    | none => .error ()
  | _, _ => .error ()

/-- Python attribute use `j.strip()`: only strings support it
(`AttributeError` otherwise). -/
def pyAsStr : JVal → Except Unit String
  | .str s => .ok s
  | _ => .error ()

/-- The in-memory ticker cache `ticker_cache`: a Python dict from company
display name to a resolved ticker or the explicit no-ticker marker `None`. -/
abbrev TCache := List (String × Option String)

/-- Python `ticker_cache[name]` guarded by `name in ticker_cache`: the
stored value of the first (unique) matching key, or `none` on a miss. -/
def dictGet : TCache → String → Option (Option String)
  | [], _ => none
  | e :: rest, k => if e.1 = k then some e.2 else dictGet rest k

/-- Python `ticker_cache[name] = v`: replace the value in place when the
key exists, otherwise append the new entry. -/
def dictSet : TCache → String → Option String → TCache
  | [], k, v => [(k, v)]
  | e :: rest, k, v => if e.1 = k then (k, v) :: rest else e :: dictSet rest k v

/-- Outcome of one underlying HTTP request in `search_with_perplexity`:
either some raised exception (transport error, timeout, non-2xx from
`raise_for_status`, body that fails JSON decoding), or a decoded body. -/
abbrev ReqOutcome := Except Unit JVal

/-- Behaviour of the outside search service: for each call index (0-based
count of calls issued so far in the process) and query text, the outcome of
the request. -/
abbrev SearchFun := Nat → String → ReqOutcome

/-- Source `search_with_perplexity` (`src/utils.py:19`): perform the
request; any exception is caught, logged, and turned into `None`. -/
def search_with_perplexity (outcome : ReqOutcome) : Option JVal :=
  match outcome with
  | .error _ => none
  | .ok j => some j

/-- Query text built at `src/utils.py:95` from the cleaned company name. -/
def search_query (search_name : String) : String :=
  "What is the stock ticker symbol for " ++ search_name ++
    " in the US (NYSE, NASDAQ, OTC markets, or as an ADR)? Only return the ticker symbol, no explanation. Return null if not found."

/-- Cleaning plus query construction of `src/utils.py:92-95`:
`company_name.replace('.', '').replace(',', '')` fed into the query text. -/
def queryFor (company_name : String) : String :=
  search_query (pyRemoveChar ',' (pyRemoveChar '.' company_name))

/-- The list of null-like markers (null, none, dash, n/a) of `src/utils.py:106`. -/
def null_like : List String := ["null", "none", "-", "n/a"]

/-- How the `try` block of `get_stock_ticker` ends when it does not raise:
return `None` without touching the cache (`src/utils.py:100`), or store a
value under the company name, persist, and return it. -/
inductive ResolveStep
  | skipNone
  | cacheValue (v : Option String)
deriving DecidableEq

/-- The `try` block of `get_stock_ticker` after the search call
(`src/utils.py:98-152`), with every fallible Python operation explicit.
`resp` is the value returned by `search_with_perplexity`. -/
def tryBody (resp : Option JVal) (company_name : String) : Except Unit ResolveStep :=
  match resp with
  | none => .ok .skipNone
  | some j =>
    if j.falsy then .ok .skipNone
    else
      match pyContains j "choices" with
      | .error e => .error e
      | .ok hasChoices =>
        if !hasChoices then .ok .skipNone
        else
          match pyIndex j (.str "choices") with
          | .error e => .error e
          | .ok choices =>
            match pyIndex choices (.idx 0) with
            | .error e => .error e
            | .ok choice0 =>
              match pyIndex choice0 (.str "message") with
              | .error e => .error e
              | .ok msg =>
                match pyIndex msg (.str "content") with
                | .error e => .error e
                | .ok contentJ =>
                  match pyAsStr contentJ with
                  | .error e => .error e
                  | .ok raw =>
                    let content := pyStrip raw
                    if pyStripDot (pyLower content) ∈ null_like then
                      .ok (.cacheValue none)
                    else
                      match
                        (match extract_ticker content company_name with
                         | some t => some t
                         | none => (pySplitWs content).head?) with
                      | none => .error ()
                      | some ticker =>
                        if !(is_valid_ticker ticker) then .ok (.cacheValue none)
                        else .ok (.cacheValue (some ticker))

/-- Observable state of the ticker resolver: the in-memory cache, the
snapshots handed to the ticker-cache save so far (most recent first),
and how many outbound search calls have been issued. -/
structure TickerState where
  cache : TCache
  saved : List TCache
  searches : Nat
deriving DecidableEq

/-- Source `get_stock_ticker` (`src/utils.py:78`): cache hit returns the
stored value with no call; otherwise one search call is issued and the
`try` block runs — a raised exception or a malformed/failed response
returns `None` leaving cache and backing store untouched, while a
determined value is stored, persisted write-through, and returned. -/
def get_stock_ticker (f : SearchFun) (company_name : String) (st : TickerState) :
    Option String × TickerState :=
  match dictGet st.cache company_name with
  | some v => (v, st)
  | none =>
    match tryBody (search_with_perplexity (f st.searches (queryFor company_name))) company_name with
    | .error _ => (none, { st with searches := st.searches + 1 })
    | .ok .skipNone => (none, { st with searches := st.searches + 1 })
    | .ok (.cacheValue v) =>
      (v, { cache := dictSet st.cache company_name v,
            saved := dictSet st.cache company_name v :: st.saved,
            searches := st.searches + 1 })

/-- One record of the upstream `Sheet1` collection, with the fields the
source reads. The five fields read with bare subscripts at
`src/utils.py:175-179` are required (a record lacking one makes the Python
raise `KeyError`; such records are outside this type, which is the validity
precondition of the spec). The source fields and the complicity category
fields are read with `.get`/membership tests and may be absent. -/
structure RawCompany where
  companyName : String
  companyId : String
  sector : String
  complicityDetails : String
  recordLastUpdated : String
  source1 : Option String
  source2 : Option String
  source3 : Option String
  source4 : Option String
  military : Option String
  settlementProduction : Option String
  populationControl : Option String
  economicExploitation : Option String
  cultural : Option String
deriving DecidableEq

/-- One record of the upstream `Campaigns` collection. Every data field is
read with a defaulted get except `Companies`, which is read with a bare
subscript at `src/utils.py:192-193` and may be absent upstream — hence an
`Option`. The field `campaignLink` models the defaulted nested get of `Campaign link` and `$arrayItems`. -/
structure RawCampaign where
  id : String
  campaignName : Option String
  companies : Option String
  description : Option String
  location : Option String
  outcomes : Option String
  aimsAchieved : Option String
  campaignGroups : Option String
  methods : Option String
  campaignLink : Option (List String)
  targetAim : Option String
deriving DecidableEq

/-- The ten campaign fields written together at `src/utils.py:198-208`. -/
structure CampaignFields where
  campaignName : String
  campaignId : String
  campaignDescription : String
  campaignLocation : String
  campaignOutcomes : String
  campaignAimsAchieved : String
  campaignGroups : String
  campaignMethods : String
  campaignLinks : List String
  targetAim : String
deriving DecidableEq

/-- One output record. The campaign fields are written all at once when a
campaign matches and are absent otherwise, so they are grouped under one
`Option CampaignFields`. -/
structure CompanyOutput where
  companyName : String
  companyId : String
  sector : String
  complicityDetails : String
  recordLastUpdated : String
  sources : List String
  stockTicker : Option String
  military : Option String
  settlementProduction : Option String
  populationControl : Option String
  economicExploitation : Option String
  cultural : Option String
  campaign : Option CampaignFields
deriving DecidableEq

/-- The decoded raw dataset handed to `flatten_and_standardize`. -/
structure RawData where
  sheet1 : List RawCompany
  campaigns : List RawCampaign

/-- The `sources` computation of `src/utils.py:166-172`: the four source
fields in fixed order, each read with a defaulted get, keeping only truthy values. -/
def sourcesOf (r : RawCompany) : List String :=
  ([r.source1, r.source2, r.source3, r.source4].map (fun o => o.getD "")).filter
    (fun v => v ≠ "")

/-- Pass 1 body (`src/utils.py:174-187`): one output record per company. -/
def buildCompany (r : RawCompany) (ticker : Option String) : CompanyOutput :=
  { companyName := r.companyName
    companyId := r.companyId
    sector := r.sector
    complicityDetails := r.complicityDetails
    recordLastUpdated := r.recordLastUpdated
    sources := sourcesOf r
    stockTicker := ticker
    military := r.military
    settlementProduction := r.settlementProduction
    populationControl := r.populationControl
    economicExploitation := r.economicExploitation
    cultural := r.cultural
    campaign := none }

/-- Pass 1 of `flatten_and_standardize`: build the outputs in input order,
resolving each stock ticker through the stateful resolver. -/
def pass1 (f : SearchFun) (rs : List RawCompany) (st : TickerState) :
    List CompanyOutput × TickerState :=
  match rs with
  | [] => ([], st)
  | r :: rest =>
    let p := get_stock_ticker f r.companyName st
    let q := pass1 f rest p.2
    (buildCompany r p.1 :: q.1, q.2)

/-- The campaign fields written at `src/utils.py:197-208`: every missing
sub-field defaults to the empty string, and the links list drops falsy
items. -/
def campaignFieldsOf (c : RawCampaign) : CampaignFields :=
  { campaignName := c.campaignName.getD ""
    campaignId := c.id
    campaignDescription := c.description.getD ""
    campaignLocation := c.location.getD ""
    campaignOutcomes := c.outcomes.getD ""
    campaignAimsAchieved := c.aimsAchieved.getD ""
    campaignGroups := c.campaignGroups.getD ""
    campaignMethods := c.methods.getD ""
    campaignLinks := (c.campaignLink.getD []).filter (fun item => item ≠ "")
    targetAim := c.targetAim.getD "" }

/-- The inner scan of `src/utils.py:195-209`: walk the output list and
overwrite the campaign fields of the first record whose `companyId` equals
the token, then stop (`break`). -/
def updateFirst (cs : List CompanyOutput) (token : String) (fds : CampaignFields) :
    List CompanyOutput :=
  match cs with
  | [] => []
  | c :: rest =>
    if c.companyId = token then { c with campaign := some fds } :: rest
    else c :: updateFirst rest token fds

/-- The token list of one campaign:
`[x.strip() for x in data['Companies'].split(',')]`. -/
def tokensOf (s : String) : List String := (pySplitComma s).map pyStrip

/-- The token loop of one campaign (`src/utils.py:194`). -/
def foldTokens (ts : List String) (fds : CampaignFields) (cs : List CompanyOutput) :
    List CompanyOutput :=
  ts.foldl (fun acc t => updateFirst acc t fds) cs

/-- One iteration of pass 2 (`src/utils.py:191-209`): reading
the `Companies` field with a bare subscript raises `KeyError` when it is absent; otherwise
every comma-separated, stripped token updates the first matching record. -/
def applyCampaign (cs : List CompanyOutput) (camp : RawCampaign) :
    Except Unit (List CompanyOutput) :=
  match camp.companies with
  | none => .error ()
  | some s => .ok (foldTokens (tokensOf s) (campaignFieldsOf camp) cs)

/-- Pass 2 of `flatten_and_standardize`: fold the campaigns in input order;
a raised `KeyError` propagates. -/
def pass2 (cs : List CompanyOutput) (camps : List RawCampaign) :
    Except Unit (List CompanyOutput) :=
  match camps with
  | [] => .ok cs
  | camp :: rest =>
    match applyCampaign cs camp with
    | .error e => .error e
    | .ok cs1 => pass2 cs1 rest

/-- Source `flatten_and_standardize` (`src/utils.py:157`): pass 1 then
pass 2. Pass 1 runs (with its ticker side effects) before any pass-2
failure, so the final resolver state is returned alongside the
possibly-failing output list. -/
def flatten_and_standardize (f : SearchFun) (data : RawData) (st : TickerState) :
    Except Unit (List CompanyOutput) × TickerState :=
  let p := pass1 f data.sheet1 st
  (pass2 p.1 data.campaigns, p.2)

/-- Index of the first output record whose `companyId` equals the token
(`cs.length` when none does), the record that the inner scan of the source updates. -/
def matchIdx (cs : List CompanyOutput) (token : String) : Nat :=
  cs.findIdx (fun c => decide (c.companyId = token))

/-- Whether one campaign writes its fields onto the record at position `i`:
some of its tokens has its first `companyId` match at `i`. A campaign whose
`Companies` field is absent reaches no record (it raises instead). -/
def campaignHits (cs : List CompanyOutput) (camp : RawCampaign) (i : Nat) : Bool :=
  match camp.companies with
  | none => false
  | some s => (tokensOf s).any (fun t => decide (matchIdx cs t = i))

/-- The last campaign, in input order, that writes onto position `i`. -/
def lastMatching (cs : List CompanyOutput) (camps : List RawCampaign) (i : Nat) :
    Option RawCampaign :=
  camps.foldl (fun acc camp => if campaignHits cs camp i then some camp else acc) none

/-- A stored cache envelope (`src/cache_manager.py:45-48`): creation
timestamp (modelled in seconds) and opaque payload. -/
structure Envelope (α : Type) where
  timestamp : Int
  data : α

/-- One day, in the seconds that model `timedelta`. -/
def secondsPerDay : Int := 86400

/-- Source `CACHE_DURATIONS` (`src/cache_manager.py:12`): one day for the
main data cache, 365 days for the ticker cache. -/
def CACHE_DURATIONS (cache_type : String) : Option Int :=
  if cache_type = "data" then some secondsPerDay
  else if cache_type = "ticker" then some (365 * secondsPerDay)
  else none

/-- `CACHE_DURATIONS.get(cache_type, timedelta(days=1))` (`src/cache_manager.py:20`). -/
def cacheDuration (cache_type : String) : Int :=
  (CACHE_DURATIONS cache_type).getD secondsPerDay

/-- File selection of `src/cache_manager.py:19` and `:44`. -/
def cacheFileFor (cache_type : String) : String :=
  if cache_type = "ticker" then "ticker_cache.json" else "data_cache.json"

/-- The filesystem as the cache store sees it: for each file name, nothing
(file absent), an unreadable or unparsable file, or a parsed envelope. -/
def FileStore (α : Type) := String → Option (Except Unit (Envelope α))

/-- Source `load_cache` (`src/cache_manager.py:17`): absent file, read or
parse failure, and expiry (`now - timestamp > duration`, strict) all give
`None`; otherwise the payload. -/
def load_cache (cache_type : String) (now : Int) (store : FileStore α) : Option α :=
  match store (cacheFileFor cache_type) with
  | none => none
  | some (.error _) => none
  | some (.ok env) =>
    if now - env.timestamp > cacheDuration cache_type then none else some env.data

/-- Source `save_cache` (`src/cache_manager.py:41`): overwrite the named
file with an envelope stamped `now`. -/
def save_cache (payload : α) (cache_type : String) (now : Int) (store : FileStore α) :
    FileStore α :=
  fun file =>
    if file = cacheFileFor cache_type then some (.ok ⟨now, payload⟩) else store file

/-- Invariant of the ticker cache: every stored non-absent value passes the
syntax validator. -/
def tickerCacheOK (c : TCache) : Bool :=
  c.all (fun e => match e.2 with | some t => is_valid_ticker t | none => true)

/-! Concrete fixtures used by witnesses and counterexamples. -/

/-- A fully populated company record (mirrors the test suite of the repository and its
fixture). -/
def wCompany : RawCompany :=
  { companyName := "Test Company"
    companyId := "test-company"
    sector := "Technology"
    complicityDetails := "Test details"
    recordLastUpdated := "2023-01-01"
    source1 := some "Source 1"
    source2 := some "Source 2"
    source3 := none
    source4 := none
    military := some "Yes"
    settlementProduction := none
    populationControl := none
    economicExploitation := none
    cultural := none }

/-- A campaign record referencing `test-company`. -/
def wCampaign : RawCampaign :=
  { id := "campaign-1"
    campaignName := some "Test Campaign"
    companies := some "test-company"
    description := some "Test campaign description"
    location := some "Test Location"
    outcomes := none
    aimsAchieved := none
    campaignGroups := none
    methods := none
    campaignLink := none
    targetAim := none }

/-- A second campaign referencing the same company. -/
def wCampaign2 : RawCampaign :=
  { id := "campaign-2"
    campaignName := some "Second Campaign"
    companies := some "test-company"
    description := none
    location := none
    outcomes := none
    aimsAchieved := none
    campaignGroups := none
    methods := none
    campaignLink := none
    targetAim := none }

/-- A campaign whose `Companies` field is absent upstream. -/
def wCampaignNoCompanies : RawCampaign :=
  { id := "campaign-1"
    campaignName := some "Campaign Without Companies"
    companies := none
    description := some "Test campaign description"
    location := none
    outcomes := none
    aimsAchieved := none
    campaignGroups := none
    methods := none
    campaignLink := none
    targetAim := none }

/-- A campaign whose `Companies` field is the empty string. -/
def wCampaignEmptyCompanies : RawCampaign :=
  { wCampaignNoCompanies with
    campaignName := some "Campaign With Empty Companies"
    companies := some "" }

/-- Search behaviour that always fails with a transport error. -/
def failSearch : SearchFun := fun _ _ => .error ()

/-- A well-formed search response whose content is the single token `AAPL`. -/
def respAAPL : JVal :=
  .obj [("choices", .arr [.obj [("message", .obj [("content", .str "AAPL")])]])]

/-- Search behaviour that always succeeds with content `AAPL`. -/
def goodSearch : SearchFun := fun _ _ => .ok respAAPL

/-- Search behaviour that fails on the first call and succeeds with `AAPL`
on every later call. -/
def flakySearch : SearchFun := fun n _ => if n = 0 then .error () else .ok respAAPL

/-- Empty resolver state. -/
def st0 : TickerState := ⟨[], [], 0⟩

/-- Resolver state whose cache already maps the fixture company to `TEST`
(mirrors the repository tests mocking `get_stock_ticker`). -/
def stTest : TickerState := ⟨[("Test Company", some "TEST")], [], 0⟩

/-- The fixture dataset: one company, one campaign referencing it. -/
def wData : RawData := ⟨[wCompany], [wCampaign]⟩

/-- Output expected for `wData`. -/
def wOut : List CompanyOutput :=
  [{ buildCompany wCompany (some "TEST") with campaign := some (campaignFieldsOf wCampaign) }]

/-- Dataset with a campaign lacking its `Companies` field. -/
def c2dataMissing : RawData := ⟨[wCompany], [wCampaignNoCompanies]⟩

/-- Dataset with a campaign whose `Companies` field is empty. -/
def c2dataEmpty : RawData := ⟨[wCompany], [wCampaignEmptyCompanies]⟩

/-- Company list and campaigns for the last-wins scenario. -/
def c6cs : List CompanyOutput := [buildCompany wCompany (some "TEST")]

/-- Two campaigns, in order, both referencing `test-company`. -/
def c6camps : List RawCampaign := [wCampaign, wCampaign2]

/-- Expected merge result: the fields of the second campaign survive. -/
def c6out : List CompanyOutput :=
  [{ buildCompany wCompany (some "TEST") with campaign := some (campaignFieldsOf wCampaign2) }]

/-! Helper lemmas about the ticker resolver. -/

theorem get_stock_ticker_hit (f : SearchFun) (name : String) (st : TickerState)
    (v : Option String) (h : dictGet st.cache name = some v) :
    get_stock_ticker f name st = (v, st) := by
  unfold get_stock_ticker
  rw [h]

theorem get_stock_ticker_miss_store (f : SearchFun) (name : String) (st : TickerState)
    (v : Option String)
    (htb : tryBody (search_with_perplexity (f st.searches (queryFor name))) name =
      .ok (.cacheValue v))
    (hmiss : dictGet st.cache name = none) :
    get_stock_ticker f name st =
      (v, { cache := dictSet st.cache name v,
            saved := dictSet st.cache name v :: st.saved,
            searches := st.searches + 1 }) := by
  unfold get_stock_ticker
  rw [hmiss, htb]

theorem get_stock_ticker_miss_noStore (f : SearchFun) (name : String) (st : TickerState)
    (hmiss : dictGet st.cache name = none)
    (hf : ∀ v, tryBody (search_with_perplexity (f st.searches (queryFor name))) name ≠
      .ok (.cacheValue v)) :
    get_stock_ticker f name st = (none, { st with searches := st.searches + 1 }) := by
  unfold get_stock_ticker
  rw [hmiss]
  rcases htb : tryBody (search_with_perplexity (f st.searches (queryFor name))) name with e | step
  · rfl
  · cases step with
    | skipNone => rfl
    | cacheValue v => exact absurd htb (hf v)

theorem dictGet_dictSet_self (c : TCache) (k : String) (v : Option String) :
    dictGet (dictSet c k v) k = some v := by
  induction c with
  | nil => simp [dictSet, dictGet]
  | cons e rest ih =>
    by_cases h : e.1 = k
    · simp [dictSet, dictGet, h]
    · simp [dictSet, dictGet, h, ih]

theorem tickerCacheOK_dictSet (c : TCache) (k : String) (v : Option String)
    (hc : tickerCacheOK c = true)
    (hv : ∀ t, v = some t → is_valid_ticker t = true) :
    tickerCacheOK (dictSet c k v) = true := by
  induction c with
  | nil =>
    simp only [dictSet, tickerCacheOK, List.all_cons, List.all_nil, Bool.and_true]
    rcases v with _ | t
    · rfl
    · exact hv t rfl
  | cons e rest ih =>
    simp only [tickerCacheOK, List.all_cons, Bool.and_eq_true] at hc
    by_cases h : e.1 = k
    · simp only [dictSet, h, if_true, tickerCacheOK, List.all_cons, Bool.and_eq_true]
      refine ⟨?_, hc.2⟩
      rcases v with _ | t
      · rfl
      · exact hv t rfl
    · simp only [dictSet, h, if_false, tickerCacheOK, List.all_cons, Bool.and_eq_true]
      exact ⟨hc.1, ih hc.2⟩

theorem tickerCacheOK_dictGet (c : TCache) (k : String) (v : Option String)
    (hc : tickerCacheOK c = true) (h : dictGet c k = some v) :
    ∀ t, v = some t → is_valid_ticker t = true := by
  induction c with
  | nil => simp [dictGet] at h
  | cons e rest ih =>
    obtain ⟨k1, v1⟩ := e
    simp only [tickerCacheOK, List.all_cons, Bool.and_eq_true] at hc
    by_cases he : k1 = k
    · simp only [dictGet, he, if_true, Option.some.injEq] at h
      intro t ht
      subst h; subst ht
      simpa using hc.1
    · simp only [dictGet, he, if_false] at h
      exact ih hc.2 h

theorem tryBody_cacheSome_valid (resp : Option JVal) (name t : String)
    (h : tryBody resp name = .ok (.cacheValue (some t))) :
    is_valid_ticker t = true := by
  rcases resp with _ | j
  · simp [tryBody] at h
  · by_cases hfalsy : j.falsy = true
    · simp [tryBody, hfalsy] at h
    · rcases hcont : pyContains j "choices" with e | b
      · simp [tryBody, hfalsy, hcont] at h
      · rcases b with _ | _
        · simp [tryBody, hfalsy, hcont] at h
        · rcases hch : pyIndex j (.str "choices") with e | choices
          · simp [tryBody, hfalsy, hcont, hch] at h
          · rcases h0 : pyIndex choices (.idx 0) with e | choice0
            · simp [tryBody, hfalsy, hcont, hch, h0] at h
            · rcases hmsg : pyIndex choice0 (.str "message") with e | msg
              · simp [tryBody, hfalsy, hcont, hch, h0, hmsg] at h
              · rcases hcnt : pyIndex msg (.str "content") with e | contentJ
                · simp [tryBody, hfalsy, hcont, hch, h0, hmsg, hcnt] at h
                · rcases hraw : pyAsStr contentJ with e | raw
                  · simp [tryBody, hfalsy, hcont, hch, h0, hmsg, hcnt, hraw] at h
                  · simp only [tryBody, hfalsy, hcont, hch, h0, hmsg, hcnt, hraw,
                      Bool.false_eq_true, if_false, Bool.not_true] at h
                    by_cases hnull : pyStripDot (pyLower (pyStrip raw)) ∈ null_like
                    · rw [if_pos hnull] at h
                      simp at h
                    · rw [if_neg hnull] at h
                      rcases htick :
                          (match extract_ticker (pyStrip raw) name with
                           | some u => some u
                           | none => (pySplitWs (pyStrip raw)).head?) with _ | ticker
                      · rw [htick] at h
                        simp at h
                      · rw [htick] at h
                        dsimp only at h
                        by_cases hv : is_valid_ticker ticker = true
                        · simp only [hv, Bool.not_true, Bool.false_eq_true, if_false,
                            Except.ok.injEq, ResolveStep.cacheValue.injEq,
                            Option.some.injEq] at h
                          subst h
                          exact hv
                        · have hv2 : is_valid_ticker ticker = false := by
                            simpa using hv
                          simp [hv2] at h

/-! Helper lemmas about the normalizer. -/

theorem pass1_length (f : SearchFun) (rs : List RawCompany) (st : TickerState) :
    (pass1 f rs st).1.length = rs.length := by
  induction rs generalizing st with
  | nil => rfl
  | cons r rest ih => simp [pass1, ih]

theorem pass1_get (f : SearchFun) (rs : List RawCompany) (st : TickerState)
    (i : Nat) (h : i < (pass1 f rs st).1.length) (h2 : i < rs.length) :
    ((pass1 f rs st).1[i]).companyName = (rs[i]).companyName ∧
      ((pass1 f rs st).1[i]).companyId = (rs[i]).companyId := by
  induction rs generalizing st i with
  | nil => exact absurd h2 (Nat.not_lt_zero i)
  | cons r rest ih =>
    cases i with
    | zero => exact ⟨rfl, rfl⟩
    | succ n =>
      have hb : n < (pass1 f rest (get_stock_ticker f r.companyName st).2).1.length := by
        rw [pass1_length]
        exact Nat.lt_of_succ_lt_succ h2
      exact ih (get_stock_ticker f r.companyName st).2 n hb (Nat.lt_of_succ_lt_succ h2)

theorem updateFirst_length (cs : List CompanyOutput) (t : String) (fds : CampaignFields) :
    (updateFirst cs t fds).length = cs.length := by
  induction cs with
  | nil => rfl
  | cons c rest ih =>
    by_cases hc : c.companyId = t
    · simp [updateFirst, hc]
    · simp [updateFirst, hc, ih]

theorem matchIdx_cons (c : CompanyOutput) (rest : List CompanyOutput) (t : String) :
    matchIdx (c :: rest) t = if c.companyId = t then 0 else matchIdx rest t + 1 := by
  by_cases hc : c.companyId = t
  · simp [matchIdx, List.findIdx_cons, hc]
  · simp [matchIdx, List.findIdx_cons, hc]

theorem updateFirst_cons_pos (c : CompanyOutput) (rest : List CompanyOutput)
    (t : String) (fds : CampaignFields) (hc : c.companyId = t) :
    updateFirst (c :: rest) t fds = { c with campaign := some fds } :: rest := by
  simp only [updateFirst, if_pos hc]

theorem updateFirst_cons_neg (c : CompanyOutput) (rest : List CompanyOutput)
    (t : String) (fds : CampaignFields) (hc : ¬c.companyId = t) :
    updateFirst (c :: rest) t fds = c :: updateFirst rest t fds := by
  simp only [updateFirst, if_neg hc]

theorem matchIdx_updateFirst (cs : List CompanyOutput) (t : String) (fds : CampaignFields)
    (u : String) : matchIdx (updateFirst cs t fds) u = matchIdx cs u := by
  induction cs with
  | nil => rfl
  | cons c rest ih =>
    by_cases hc : c.companyId = t
    · rw [updateFirst_cons_pos c rest t fds hc, matchIdx_cons, matchIdx_cons]
    · rw [updateFirst_cons_neg c rest t fds hc, matchIdx_cons, matchIdx_cons, ih]

theorem updateFirst_get (cs : List CompanyOutput) (t : String) (fds : CampaignFields)
    (i : Nat) (h : i < cs.length) (h2 : i < (updateFirst cs t fds).length) :
    (updateFirst cs t fds)[i] =
      if matchIdx cs t = i then { cs[i] with campaign := some fds }
      else cs[i] := by
  induction cs generalizing i with
  | nil => exact absurd h (Nat.not_lt_zero i)
  | cons c rest ih =>
    by_cases hc : c.companyId = t
    · rw [matchIdx_cons, if_pos hc]
      cases i with
      | zero => simp [updateFirst_cons_pos c rest t fds hc]
      | succ n => simp [updateFirst_cons_pos c rest t fds hc]
    · rw [matchIdx_cons, if_neg hc]
      cases i with
      | zero => simp [updateFirst_cons_neg c rest t fds hc]
      | succ n =>
        have hr : n < rest.length := Nat.lt_of_succ_lt_succ h
        have hr2 : n < (updateFirst rest t fds).length := by
          rw [updateFirst_length]; exact hr
        have hiter := ih n hr hr2
        simp only [updateFirst_cons_neg c rest t fds hc, List.getElem_cons_succ]
        rw [hiter]
        by_cases hm : matchIdx rest t = n
        · rw [if_pos hm, if_pos (by omega)]
        · rw [if_neg hm, if_neg (by omega)]

theorem foldTokens_length (ts : List String) (fds : CampaignFields)
    (cs : List CompanyOutput) : (foldTokens ts fds cs).length = cs.length := by
  induction ts generalizing cs with
  | nil => rfl
  | cons t ts ih =>
    show (foldTokens ts fds (updateFirst cs t fds)).length = cs.length
    rw [ih, updateFirst_length]

theorem matchIdx_foldTokens (ts : List String) (fds : CampaignFields)
    (cs : List CompanyOutput) (u : String) :
    matchIdx (foldTokens ts fds cs) u = matchIdx cs u := by
  induction ts generalizing cs with
  | nil => rfl
  | cons t ts ih =>
    show matchIdx (foldTokens ts fds (updateFirst cs t fds)) u = matchIdx cs u
    rw [ih, matchIdx_updateFirst]

theorem foldTokens_get (ts : List String) (fds : CampaignFields) (cs : List CompanyOutput)
    (i : Nat) (h : i < cs.length) (h2 : i < (foldTokens ts fds cs).length) :
    (foldTokens ts fds cs)[i] =
      if ts.any (fun t => decide (matchIdx cs t = i)) then
        { cs[i] with campaign := some fds }
      else cs[i] := by
  induction ts generalizing cs with
  | nil => simp [foldTokens]
  | cons t ts ih =>
    have hu : i < (updateFirst cs t fds).length := by rw [updateFirst_length]; exact h
    have hu2 : i < (foldTokens ts fds (updateFirst cs t fds)).length := by
      rw [foldTokens_length]; exact hu
    have hstep := ih (updateFirst cs t fds) hu hu2
    have hfold :
        (foldTokens (t :: ts) fds cs)[i] =
          (foldTokens ts fds (updateFirst cs t fds))[i] := rfl
    rw [hfold, hstep, updateFirst_get cs t fds i h hu]
    simp only [matchIdx_updateFirst, List.any_cons]
    by_cases hm : matchIdx cs t = i
    · by_cases ha : ts.any (fun u => decide (matchIdx cs u = i)) = true
      · rw [ha, if_pos hm]
        simp [hm]
      · simp only [Bool.not_eq_true] at ha
        rw [ha, if_pos hm]
        simp [hm]
    · by_cases ha : ts.any (fun u => decide (matchIdx cs u = i)) = true
      · rw [ha, if_neg hm]
        simp [hm]
      · simp only [Bool.not_eq_true] at ha
        rw [ha, if_neg hm]
        simp [hm]

theorem campaignHits_foldTokens (cs : List CompanyOutput) (camp : RawCampaign) (i : Nat)
    (ts : List String) (fds : CampaignFields) :
    campaignHits (foldTokens ts fds cs) camp i = campaignHits cs camp i := by
  unfold campaignHits
  cases camp.companies with
  | none => rfl
  | some s => simp only [matchIdx_foldTokens]

theorem lastMatching_foldl (cs : List CompanyOutput) (i : Nat)
    (camps : List RawCampaign) (acc : Option RawCampaign) :
    camps.foldl (fun a camp => if campaignHits cs camp i then some camp else a) acc =
      match lastMatching cs camps i with
      | some c => some c
      | none => acc := by
  induction camps generalizing acc with
  | nil => rfl
  | cons camp rest ih =>
    show rest.foldl _ (if campaignHits cs camp i then some camp else acc) = _
    rw [ih]
    have hlm : lastMatching cs (camp :: rest) i =
        rest.foldl (fun a c => if campaignHits cs c i then some c else a)
          (if campaignHits cs camp i then some camp else none) := rfl
    rw [hlm, ih]
    cases lastMatching cs rest i with
    | some d => rfl
    | none =>
      by_cases hh : campaignHits cs camp i = true
      · rw [if_pos hh, if_pos hh]
      · simp only [Bool.not_eq_true] at hh
        rw [hh]
        rfl

theorem lastMatching_foldTokens (cs : List CompanyOutput) (camps : List RawCampaign)
    (i : Nat) (ts : List String) (fds : CampaignFields) :
    lastMatching (foldTokens ts fds cs) camps i = lastMatching cs camps i := by
  unfold lastMatching
  simp only [campaignHits_foldTokens]

theorem pass2_length (camps : List RawCampaign) (cs out : List CompanyOutput)
    (h : pass2 cs camps = .ok out) : out.length = cs.length := by
  induction camps generalizing cs with
  | nil =>
    simp only [pass2, Except.ok.injEq] at h
    rw [h]
  | cons camp rest ih =>
    cases hcs : camp.companies with
    | none => simp [pass2, applyCampaign, hcs] at h
    | some s =>
      have happ : applyCampaign cs camp =
          .ok (foldTokens (tokensOf s) (campaignFieldsOf camp) cs) := by
        simp [applyCampaign, hcs]
      rw [pass2, happ] at h
      rw [ih _ h, foldTokens_length]

theorem pass2_get (camps : List RawCampaign) (cs out : List CompanyOutput)
    (h : pass2 cs camps = .ok out) (i : Nat) (hi : i < cs.length) (ho : i < out.length) :
    out[i] =
      match lastMatching cs camps i with
      | some camp => { cs[i] with campaign := some (campaignFieldsOf camp) }
      | none => cs[i] := by
  induction camps generalizing cs with
  | nil =>
    simp only [pass2, Except.ok.injEq] at h
    subst h
    rfl
  | cons camp rest ih =>
    cases hcs : camp.companies with
    | none => simp [pass2, applyCampaign, hcs] at h
    | some s =>
      have happ : applyCampaign cs camp =
          .ok (foldTokens (tokensOf s) (campaignFieldsOf camp) cs) := by
        simp [applyCampaign, hcs]
      rw [pass2, happ] at h
      have hcs1 : i < (foldTokens (tokensOf s) (campaignFieldsOf camp) cs).length := by
        rw [foldTokens_length]; exact hi
      have hstep := ih (foldTokens (tokensOf s) (campaignFieldsOf camp) cs) h hcs1
      rw [hstep, lastMatching_foldTokens,
        foldTokens_get (tokensOf s) (campaignFieldsOf camp) cs i hi hcs1]
      have hlm : lastMatching cs (camp :: rest) i =
          match lastMatching cs rest i with
          | some c => some c
          | none => if campaignHits cs camp i then some camp else none := by
        show List.foldl _ (if campaignHits cs camp i then some camp else none) rest = _
        rw [lastMatching_foldl]
      rw [hlm]
      have hhit : campaignHits cs camp i =
          (tokensOf s).any (fun t => decide (matchIdx cs t = i)) := by
        unfold campaignHits
        rw [hcs]
      cases lastMatching cs rest i with
      | some d =>
        by_cases ha : (tokensOf s).any (fun t => decide (matchIdx cs t = i)) = true
        · rw [ha]
          rfl
        · simp only [Bool.not_eq_true] at ha
          rw [ha]
          rfl
      | none =>
        by_cases ha : (tokensOf s).any (fun t => decide (matchIdx cs t = i)) = true
        · rw [ha, hhit, ha]
          rfl
        · simp only [Bool.not_eq_true] at ha
          rw [ha, hhit, ha]
          rfl

theorem get_stock_ticker_searches_le (f : SearchFun) (name : String) (st : TickerState) :
    (get_stock_ticker f name st).2.searches ≤ st.searches + 1 := by
  unfold get_stock_ticker
  split
  · simp
  · split
    · simp
    · simp
    · simp

theorem get_stock_ticker_miss_searches (f : SearchFun) (name : String) (st : TickerState)
    (hmiss : dictGet st.cache name = none) :
    (get_stock_ticker f name st).2.searches = st.searches + 1 := by
  unfold get_stock_ticker
  simp only [hmiss]
  split <;> rfl

/-! The claims. -/

/-- C5: `is_valid_ticker s` is true iff `s` is non-empty, at most 10
characters, and matches at least one of the five validator regexes; in
particular it accepts `AAPL`, `ABBNY`, `EADSY`, `A`, `ABCDE` and rejects
the empty string, `123ABC`, `ABCDEFGHIJK`, `abc`, `AB-CD` and `AB CD`. -/
theorem c5_ticker_validator :
    (∀ s : String, is_valid_ticker s = true ↔
      (¬s.data = [] ∧ s.data.length ≤ 10 ∧
        (reFullMatch patPlain s = true ∨ reFullMatch patADR s = true ∨
         reFullMatch patF s = true ∨ reFullMatch patOTC s = true ∨
         reFullMatch patNum s = true))) ∧
    is_valid_ticker "AAPL" = true ∧ is_valid_ticker "ABBNY" = true ∧
    is_valid_ticker "EADSY" = true ∧ is_valid_ticker "A" = true ∧
    is_valid_ticker "ABCDE" = true ∧ is_valid_ticker "" = false ∧
    is_valid_ticker "123ABC" = false ∧ is_valid_ticker "ABCDEFGHIJK" = false ∧
    is_valid_ticker "abc" = false ∧ is_valid_ticker "AB-CD" = false ∧
    is_valid_ticker "AB CD" = false := by
  refine ⟨?_, by decide, by decide, by decide, by decide, by decide, by decide,
    by decide, by decide, by decide, by decide, by decide⟩
  intro s
  unfold is_valid_ticker
  by_cases h : s.data = [] ∨ s.data.length > 10
  · rw [if_pos h]
    simp only [Bool.false_eq_true, false_iff]
    rintro ⟨h1, h2, _⟩
    rcases h with h | h
    · exact h1 h
    · omega
  · rw [if_neg h]
    push_neg at h
    have hlen : s.data.length ≤ 10 := by omega
    have hne : ¬s.data = [] := h.1
    simp only [List.any_cons, List.any_nil, Bool.or_eq_true, Bool.false_eq_true, or_false]
    tauto

/-- C8: an envelope written by `save_cache` and loaded by `load_cache` for
the same cache name returns the payload exactly while `now - timestamp`
does not exceed the configured duration, and returns absent once it does. -/
theorem c8_cache_roundtrip {α : Type} (payload : α) (name : String) (tWrite tRead : Int)
    (store : FileStore α) :
    load_cache name tRead (save_cache payload name tWrite store) =
      if tRead - tWrite ≤ cacheDuration name then some payload else none := by
  have hstore : save_cache payload name tWrite store (cacheFileFor name) =
      some (.ok ⟨tWrite, payload⟩) := by
    unfold save_cache
    rw [if_pos rfl]
  unfold load_cache
  rw [hstore]
  by_cases hle : tRead - tWrite ≤ cacheDuration name
  · rw [if_pos hle]
    have : ¬tRead - tWrite > cacheDuration name := by omega
    simp only [this, if_false, if_neg this]
  · rw [if_neg hle]
    have : tRead - tWrite > cacheDuration name := by omega
    simp only [this, if_pos this, if_true]

/-- C1: for every dataset on which `flatten_and_standardize` returns a
list, that list has exactly one output record per `Sheet1` company record,
in the same order (position `i` carries the name and id of company `i`),
regardless of the campaigns. -/
theorem c1_one_output_per_company (f : SearchFun) (data : RawData) (st : TickerState)
    (out : List CompanyOutput)
    (h : (flatten_and_standardize f data st).1 = .ok out) :
    out.length = data.sheet1.length ∧
      ∀ i (hi : i < out.length) (hi2 : i < data.sheet1.length),
        (out[i]).companyName = (data.sheet1[i]).companyName ∧
          (out[i]).companyId = (data.sheet1[i]).companyId := by
  have hpass2 : pass2 (pass1 f data.sheet1 st).1 data.campaigns = .ok out := h
  have hlen1 := pass1_length f data.sheet1 st
  have hlen2 := pass2_length data.campaigns (pass1 f data.sheet1 st).1 out hpass2
  constructor
  · rw [hlen2, hlen1]
  · intro i hi hi2
    have hbase : i < (pass1 f data.sheet1 st).1.length := by rw [hlen1]; exact hi2
    have hg := pass2_get data.campaigns (pass1 f data.sheet1 st).1 out hpass2 i hbase hi
    have hp1 := pass1_get f data.sheet1 st i hbase hi2
    rcases hl : lastMatching (pass1 f data.sheet1 st).1 data.campaigns i with _ | camp
    · rw [hl] at hg
      rw [hg]
      exact hp1
    · rw [hl] at hg
      rw [hg]
      exact hp1

/-- C1 witness: on the fixture dataset the output has exactly one record,
carrying the name and id of the input company. -/
theorem c1_witness :
    wOut.length = wData.sheet1.length ∧
      (wOut.get ⟨0, by decide⟩).companyName = "Test Company" ∧
      (wOut.get ⟨0, by decide⟩).companyId = "test-company" := by
  have H := c1_one_output_per_company failSearch wData stTest wOut rfl
  exact ⟨H.1, (H.2 0 (by decide) (by decide)).1, (H.2 0 (by decide) (by decide)).2⟩

/-- C6: campaign merging preserves the number and identity of output
records; each token reaches only the record at `matchIdx` (the first, in
output order, whose companyId equals the token), and the record at
position `i` ends with the campaign fields of the last campaign in input
order that reaches it (late-wins overwrite), or stays untouched when none
does. -/
theorem c6_last_campaign_wins (cs : List CompanyOutput) (camps : List RawCampaign)
    (out : List CompanyOutput) (h : pass2 cs camps = .ok out) :
    out.length = cs.length ∧
      ∀ i (hi : i < cs.length) (ho : i < out.length),
        out[i] = match lastMatching cs camps i with
          | some camp => { cs[i] with campaign := some (campaignFieldsOf camp) }
          | none => cs[i] :=
  ⟨pass2_length camps cs out h, fun i hi ho => pass2_get camps cs out h i hi ho⟩

/-- C6 witness: two campaigns, `Test Campaign` then `Second Campaign`, both
referencing `test-company` — the final fields are those of the second. -/
theorem c6_witness :
    c6out.length = c6cs.length ∧
      c6out.get ⟨0, by decide⟩ =
        { c6cs.get ⟨0, by decide⟩ with campaign := some (campaignFieldsOf wCampaign2) } := by
  have H := c6_last_campaign_wins c6cs c6camps c6out rfl
  exact ⟨H.1, H.2 0 (by decide) (by decide)⟩

/-- C2 (code bug): a campaign whose `Companies` field is absent makes
`flatten_and_standardize` raise `KeyError` (first conjunct), although the
own test of the repository, `test_flatten_and_standardize_missing_companies_field`,
requires the campaign to be skipped with no error; a campaign whose
`Companies` field is the empty string is effectively skipped as the claim
says (second conjunct). -/
theorem c2_missing_companies_key_error :
    (flatten_and_standardize failSearch c2dataMissing stTest).1 = .error () ∧
      (flatten_and_standardize failSearch c2dataEmpty stTest).1 =
        .ok [buildCompany wCompany (some "TEST")] :=
  ⟨rfl, rfl⟩

/-- C3 (counterexample): with a search that fails on the first call and
succeeds on the second, two resolutions of the same uncached name return
different values (`none` then `AAPL`) and issue two outbound calls. -/
theorem c3_counterexample :
    (get_stock_ticker flakySearch "Example Corp" st0).1 = none ∧
      (get_stock_ticker flakySearch "Example Corp"
        (get_stock_ticker flakySearch "Example Corp" st0).2).1 = some "AAPL" ∧
      (get_stock_ticker flakySearch "Example Corp"
        (get_stock_ticker flakySearch "Example Corp" st0).2).2.searches = 2 :=
  ⟨rfl, rfl, rfl⟩

/-- C3 (amended): when the first resolution ends with the name cached —
every outcome except a failed search, malformed response or exception —
the second resolution returns the same value and the same state (so no
further outbound call), and the two calls issue at most one search total. -/
theorem c3_amended_idempotent (f : SearchFun) (name : String) (st : TickerState)
    (hcached : dictGet (get_stock_ticker f name st).2.cache name =
      some (get_stock_ticker f name st).1) :
    get_stock_ticker f name (get_stock_ticker f name st).2 =
      get_stock_ticker f name st ∧
      (get_stock_ticker f name st).2.searches ≤ st.searches + 1 := by
  refine ⟨?_, get_stock_ticker_searches_le f name st⟩
  rw [get_stock_ticker_hit f name (get_stock_ticker f name st).2 _ hcached]

/-- C3 witness: with an always-succeeding search the second resolution of
`Example Corp` coincides with the first and only one call was issued. -/
theorem c3_amended_witness :
    get_stock_ticker goodSearch "Example Corp"
        (get_stock_ticker goodSearch "Example Corp" st0).2 =
      get_stock_ticker goodSearch "Example Corp" st0 ∧
      (get_stock_ticker goodSearch "Example Corp" st0).2.searches ≤ st0.searches + 1 :=
  c3_amended_idempotent goodSearch "Example Corp" st0 rfl

/-- C4 (counterexample): the path where the search call fails determines
the final resolution value (absent) for an uncached name yet persists
nothing — after the call the log of `save_cache` snapshots is still empty. -/
theorem c4_counterexample :
    get_stock_ticker failSearch "C4 Corp" st0 = (none, ⟨[], [], 1⟩) := rfl

/-- C4 (amended): only the paths that reach a determined value from a
well-formed response (null-like content, a candidate failing validation,
or a valid ticker) persist the updated cache before returning; the paths
where the search fails, the response is malformed, or an exception is
raised return absent without writing the backing store. -/
theorem c4_amended_persistence (f : SearchFun) (name : String) (st : TickerState)
    (hmiss : dictGet st.cache name = none) :
    (∀ v, tryBody (search_with_perplexity (f st.searches (queryFor name))) name =
        .ok (.cacheValue v) →
      get_stock_ticker f name st =
        (v, ⟨dictSet st.cache name v, dictSet st.cache name v :: st.saved,
          st.searches + 1⟩)) ∧
    ((∀ v, tryBody (search_with_perplexity (f st.searches (queryFor name))) name ≠
        .ok (.cacheValue v)) →
      get_stock_ticker f name st = (none, ⟨st.cache, st.saved, st.searches + 1⟩)) := by
  constructor
  · intro v htb
    exact get_stock_ticker_miss_store f name st v htb hmiss
  · intro hf
    exact get_stock_ticker_miss_noStore f name st hmiss hf

/-- C4 witness: a successful resolution stores the ticker and pushes the
updated cache to the backing store before returning. -/
theorem c4_amended_witness :
    get_stock_ticker goodSearch "C4 Witness Corp" st0 =
      (some "AAPL", ⟨[("C4 Witness Corp", some "AAPL")],
        [[("C4 Witness Corp", some "AAPL")]], 1⟩) :=
  (c4_amended_persistence goodSearch "C4 Witness Corp" st0 rfl).1 (some "AAPL") rfl

/-- C7: every failure of the search/LLM path — a transport error mapped to
`None` by `search_with_perplexity` (second conjunct) as well as any
malformed response or exception inside the body (first conjunct, covering
every body outcome that determines no value) — is absorbed: the function
returns the pair (absent, state) to its caller instead of propagating. -/
theorem c7_failures_absorbed (f : SearchFun) (name : String) (st : TickerState)
    (hmiss : dictGet st.cache name = none)
    (hfail : ∀ v, tryBody (search_with_perplexity (f st.searches (queryFor name))) name ≠
      .ok (.cacheValue v)) :
    get_stock_ticker f name st = (none, { st with searches := st.searches + 1 }) ∧
      ∀ e : Unit, search_with_perplexity (.error e) = none :=
  ⟨get_stock_ticker_miss_noStore f name st hmiss hfail, fun _ => rfl⟩

/-- C7 witness: a transport error on an uncached name yields absent. -/
theorem c7_witness :
    get_stock_ticker failSearch "C7 Corp" st0 = (none, ⟨[], [], 1⟩) :=
  (c7_failures_absorbed failSearch "C7 Corp" st0 rfl
    (fun _ h => ResolveStep.noConfusion (Except.ok.inj h))).1

/-- C9: when resolution of an uncached name fails (failed search, malformed
response or exception), the call returns absent, both the in-memory cache
and the persisted snapshots are unchanged — the name is not negatively
cached — and a subsequent call for the same name issues the outbound
search again. -/
theorem c9_failures_not_cached (f : SearchFun) (name : String) (st : TickerState)
    (hmiss : dictGet st.cache name = none)
    (hfail : ∀ v, tryBody (search_with_perplexity (f st.searches (queryFor name))) name ≠
      .ok (.cacheValue v)) :
    (get_stock_ticker f name st).1 = none ∧
      (get_stock_ticker f name st).2.cache = st.cache ∧
      (get_stock_ticker f name st).2.saved = st.saved ∧
      ∀ f2 : SearchFun,
        (get_stock_ticker f2 name (get_stock_ticker f name st).2).2.searches =
          (get_stock_ticker f name st).2.searches + 1 := by
  have H := get_stock_ticker_miss_noStore f name st hmiss hfail
  rw [H]
  refine ⟨rfl, rfl, rfl, ?_⟩
  intro f2
  exact get_stock_ticker_miss_searches f2 name _ hmiss

/-- C9 witness: a failed search for `C9 Corp` leaves the state untouched
and the follow-up call searches again (two calls in total). -/
theorem c9_witness :
    (get_stock_ticker failSearch "C9 Corp" st0).1 = none ∧
      (get_stock_ticker failSearch "C9 Corp" st0).2.cache = ([] : TCache) ∧
      (get_stock_ticker failSearch "C9 Corp" st0).2.saved = ([] : List TCache) ∧
      (get_stock_ticker failSearch "C9 Corp"
        (get_stock_ticker failSearch "C9 Corp" st0).2).2.searches = 2 := by
  have H := c9_failures_not_cached failSearch "C9 Corp" st0 rfl
    (fun _ h => ResolveStep.noConfusion (Except.ok.inj h))
  exact ⟨H.1, H.2.1, H.2.2.1, H.2.2.2 failSearch⟩

/-- C10: the empty cache satisfies the validity invariant; assuming the
invariant, every non-absent value returned by one resolution passes
`is_valid_ticker` and the invariant still holds afterwards (a value is
cached as a ticker only after passing validation). -/
theorem c10_cache_validity_invariant (f : SearchFun) (name : String) (st : TickerState)
    (h : tickerCacheOK st.cache = true) :
    (∀ t, (get_stock_ticker f name st).1 = some t → is_valid_ticker t = true) ∧
      tickerCacheOK (get_stock_ticker f name st).2.cache = true ∧
      tickerCacheOK ([] : TCache) = true := by
  refine ⟨?_, ?_, rfl⟩ <;>
  · rcases hd : dictGet st.cache name with _ | v
    · rcases htb : tryBody (search_with_perplexity (f st.searches (queryFor name))) name
        with e | step
      · have H := get_stock_ticker_miss_noStore f name st hd
          (fun v hv => by rw [htb] at hv; exact Except.noConfusion hv)
        rw [H]
        first
          | exact fun t ht => Option.noConfusion ht
          | exact h
      · cases step with
        | skipNone =>
          have H := get_stock_ticker_miss_noStore f name st hd
            (fun v hv => by
              rw [htb] at hv
              exact ResolveStep.noConfusion (Except.ok.inj hv))
          rw [H]
          first
            | exact fun t ht => Option.noConfusion ht
            | exact h
        | cacheValue v =>
          have H := get_stock_ticker_miss_store f name st v htb hd
          rw [H]
          first
            | exact fun t ht => by
                have hv : v = some t := ht
                rw [hv] at htb
                exact tryBody_cacheSome_valid _ name t htb
            | exact tickerCacheOK_dictSet st.cache name v h
                (fun t hvt => by
                  rw [hvt] at htb
                  exact tryBody_cacheSome_valid _ name t htb)
    · have H := get_stock_ticker_hit f name st v hd
      rw [H]
      first
        | exact fun t ht => tickerCacheOK_dictGet st.cache name v h hd t ht
        | exact h

/-- C10 witness: starting from the empty cache, a successful resolution
keeps the invariant and the returned ticker is syntactically valid. -/
theorem c10_witness :
    tickerCacheOK (get_stock_ticker goodSearch "C10 Corp" st0).2.cache = true ∧
      is_valid_ticker "AAPL" = true := by
  have H := c10_cache_validity_invariant goodSearch "C10 Corp" st0 rfl
  exact ⟨H.2.1, H.1 "AAPL" rfl⟩

end Watermelon
